import Mathlib

/-!
Verification of the PANORAMA/PI-CAI grand-challenge evaluator
(`evaluation.py`): the manifest matcher `load_predictions_json`, the
per-row resolution in `picai_gc_evaluator.load`, and the scoring adapter
`picai_gc_evaluator.score`, shallowly embedded in Lean.

Python strings are `String`, Python dicts are ordered association lists
(`List (String × α)`) with Python's assignment semantics (update in place,
append when fresh), JSON documents are the inductive `JVal`, and Python
exceptions are the error side of `Except PyErr`.
-/

namespace PanoramaEval

/-- Python exception kinds raised by the evaluator's code paths. -/
inductive PyErr where
  | typeError (msg : String)
  | valueError (msg : String)
  | keyError (msg : String)
  | assertionError (msg : String)
  | runtimeError (msg : String)
  | validationError (msg : String)
deriving DecidableEq

/-! ### Character-list string primitives

`str.split(tok)[0]`, `str.endswith(tok)` and friends, modelled on
`List Char` so that `String` wrappers stay one-line. -/

/-- Whether `pat` occurs at the very start of `l` (list-level). -/
def startsTok : List Char → List Char → Bool
  | [], _ => true
  | _ :: _, [] => false
  | p :: ps, c :: cs => p == c && startsTok ps cs

/-- Everything of `l` strictly before the first occurrence of `pat`:
this is Python's `l.split(pat)[0]` for a non-empty separator `pat`. -/
def takeUntilTok (pat : List Char) : List Char → List Char
  | [] => []
  | c :: cs => if startsTok pat (c :: cs) then [] else c :: takeUntilTok pat cs

/-- Whether `pat` occurs anywhere inside `l` (as a contiguous run). -/
def occursTok (pat : List Char) : List Char → Bool
  | [] => startsTok pat []
  | c :: cs => startsTok pat (c :: cs) || occursTok pat cs

/-- Python's `s.split(tok)[0]` on strings (first field of the split). -/
def pySplitFirst (tok s : String) : String :=
  String.mk (takeUntilTok tok.data s.data)

/-- Python's `s.endswith(tok)` on strings. -/
def pyEndsWith (s tok : String) : Bool :=
  startsTok tok.data.reverse s.data.reverse

/-- Membership test on a list of strings (Python's `in`). -/
def containsB : List String → String → Bool
  | [], _ => false
  | y :: ys, x => (y == x) || containsB ys x

/-- Boolean pairwise-distinctness of a list of strings. -/
def nodupB : List String → Bool
  | [] => true
  | x :: xs => !containsB xs x && nodupB xs

/-! ### Ordered dictionaries (Python `dict`) -/

/-- Lookup in an ordered association list (Python `d[k]` read side). -/
def lookupA {α : Type} : List (String × α) → String → Option α
  | [], _ => none
  | (k, v) :: rest, key => if k == key then some v else lookupA rest key

/-- Python dict assignment `d[k] = v`: update in place if the key is
present, append at the end otherwise. -/
def dictInsert {α : Type} : List (String × α) → String → α → List (String × α)
  | [], k, v => [(k, v)]
  | (k0, v0) :: rest, k, v =>
    if k0 == k then (k0, v) :: rest else (k0, v0) :: dictInsert rest k v

/-! ### JSON documents and Python dynamic-typing semantics -/

/-- A parsed JSON document as returned by `json.load`.  Floats are kept
opaque (only the `isinstance(entries, float)` check in the source ever
inspects them, and it ignores the value); `jfloat` carries the literal's
text.  Objects are ordered key/value lists. -/
inductive JVal where
  | jnull
  | jbool (b : Bool)
  | jint (n : Int)
  | jfloat (lit : String)
  | jstr (s : String)
  | jarr (xs : List JVal)
  | jobj (kvs : List (String × JVal))

/-- Python `v[key]` for a string key: succeeds only on dicts holding the
key; raises `TypeError`/`KeyError` exactly as CPython does on the other
shapes. -/
def pySub (v : JVal) (key : String) : Except PyErr JVal :=
  match v with
  | .jobj kvs =>
    match lookupA kvs key with
    | some x => .ok x
    | none => .error (.keyError key)
  | .jstr _ => .error (.typeError "string indices must be integers")
  | .jarr _ => .error (.typeError "list indices must be integers")
  | _ => .error (.typeError "object is not subscriptable")

/-- Python `for x in v`: lists yield their elements, strings yield their
characters as one-character strings, dicts yield their keys; numbers,
booleans and `None` raise `TypeError`. -/
def pyIter : JVal → Except PyErr (List JVal)
  | .jarr xs => .ok xs
  | .jstr s => .ok (s.data.map fun c => .jstr (String.mk [c]))
  | .jobj kvs => .ok (kvs.map fun kv => .jstr kv.1)
  | _ => .error (.typeError "object is not iterable")

/-- Python `str(v)` for a loaded JSON value.  The manifest's
`image.name` / `image.pk` fields are strings in practice; container
values are rendered opaquely here (no theorem depends on that
rendering). -/
def pyStrOf : JVal → String
  | .jstr s => s
  | .jint n => toString n
  | .jbool true => "True"
  | .jbool false => "False"
  | .jnull => "None"
  | .jfloat lit => lit
  | .jarr _ => "[...]"
  | .jobj _ => "{...}"

/-- Python `v == s` against a string literal `s` (no `__eq__` overrides
are in play, so only an equal string compares equal). -/
def jvalEqStr (v : JVal) (s : String) : Bool :=
  match v with
  | .jstr t => t == s
  | _ => false

/-- Whether a JSON document is a bare scalar (not a list, not an object). -/
def isScalarJ : JVal → Bool
  | .jarr _ => false
  | .jobj _ => false
  | _ => true

/-! ### The manifest matcher `load_predictions_json` -/

/-- Subject-id derivation in `load_predictions_json`:
`filename.split("_t2w")[0]`. -/
def deriveSubjectId (filename : String) : String :=
  pySplitFirst "_t2w" filename

/-- Detection-map key normalisation in `load_predictions_json`:
`if not pk.endswith(".mha"): pk += ".mha"`. -/
def normPk (pk : String) : String :=
  if pyEndsWith pk ".mha" then pk else pk ++ ".mha"

/-- The inner loop over `entry["inputs"]`: scan for the first input whose
`interface.slug` is `"transverse-t2-prostate-mri"`, and on a hit return
the subject id derived from `str(input["image"]["name"])` (the `break`);
`none` when the loop falls through with `subject_id` still `None`. -/
def scanInputsT2 : List JVal → Except PyErr (Option String)
  | [] => .ok none
  | v :: rest =>
    match pySub v "interface" with
    | .error e => .error e
    | .ok itf =>
      match pySub itf "slug" with
      | .error e => .error e
      | .ok slug =>
        if jvalEqStr slug "transverse-t2-prostate-mri" then
          match pySub v "image" with
          | .error e => .error e
          | .ok img =>
            match pySub img "name" with
            | .error e => .error e
            | .ok nm => .ok (some (deriveSubjectId (pyStrOf nm)))
        else scanInputsT2 rest

/-- The loop over `entry["outputs"]`: for every output whose
`interface.slug` is `"cspca-detection-map"`, insert the normalised
`str(output["image"]["pk"])` into the accumulated dictionary with the
entry's subject id as value (no `break`: every matching output fires). -/
def scanOutputsDet (st : List (String × String)) (sid : String) :
    List JVal → Except PyErr (List (String × String))
  | [] => .ok st
  | v :: rest =>
    match pySub v "interface" with
    | .error e => .error e
    | .ok itf =>
      match pySub itf "slug" with
      | .error e => .error e
      | .ok slug =>
        if jvalEqStr slug "cspca-detection-map" then
          match pySub v "image" with
          | .error e => .error e
          | .ok img =>
            match pySub img "pk" with
            | .error e => .error e
            | .ok pkv => scanOutputsDet (dictInsert st (normPk (pyStrOf pkv)) sid) sid rest
        else scanOutputsDet st sid rest

/-- The body of the `for entry in entries` loop: resolve the subject id
from the inputs (raising `ValueError` when none is found) and then fold
the outputs into the dictionary. -/
def processEntry (st : List (String × String)) (entry : JVal) :
    Except PyErr (List (String × String)) :=
  match pySub entry "inputs" with
  | .error e => .error e
  | .ok ins =>
    match pyIter ins with
    | .error e => .error e
    | .ok insList =>
      match scanInputsT2 insList with
      | .error e => .error e
      | .ok none => .error (.valueError ("No filename found for entry: " ++ pyStrOf entry))
      | .ok (some sid) =>
        match pySub entry "outputs" with
        | .error e => .error e
        | .ok outs =>
          match pyIter outs with
          | .error e => .error e
          | .ok outsList => scanOutputsDet st sid outsList

/-- Left-to-right fold of `processEntry` over the iterated document. -/
def processEntries (st : List (String × String)) :
    List JVal → Except PyErr (List (String × String))
  | [] => .ok st
  | e :: rest =>
    match processEntry st e with
    | .error err => .error err
    | .ok st' => processEntries st' rest

/-- The function `load_predictions_json`: reject a float document
(`isinstance(entries, float)`), then iterate the document and build the
detection-map-pk → subject-id dictionary. -/
def load_predictions_json (doc : JVal) : Except PyErr (List (String × String)) :=
  match doc with
  | .jfloat _ => .error (.typeError "entries of type float for file")
  | d =>
    match pyIter d with
    | .error e => .error e
    | .ok entries => processEntries [] entries

/-! ### Typed manifests

A well-formed grand-challenge manifest is a JSON array of job objects;
the typed `Job` below is encoded back into `JVal` by `encodeManifest`,
so claims about well-formed manifests are claims about
`load_predictions_json` on the encoded document. -/

/-- One interface value of a job: its slug and the relevant image field
(`image.name` for inputs, `image.pk` for outputs). -/
structure IfVal where
  slug : String
  name : String
deriving DecidableEq

/-- One job of the manifest: its declared inputs and outputs. -/
structure Job where
  inputs : List IfVal
  outputs : List IfVal
deriving DecidableEq

/-- Encoding of an input interface value into manifest JSON. -/
def encodeIn (v : IfVal) : JVal :=
  .jobj [("interface", .jobj [("slug", .jstr v.slug)]),
         ("image", .jobj [("name", .jstr v.name)])]

/-- Encoding of an output interface value into manifest JSON. -/
def encodeOut (v : IfVal) : JVal :=
  .jobj [("interface", .jobj [("slug", .jstr v.slug)]),
         ("image", .jobj [("pk", .jstr v.name)])]

/-- Encoding of a job into a manifest JSON object. -/
def encodeJob (j : Job) : JVal :=
  .jobj [("inputs", .jarr (j.inputs.map encodeIn)),
         ("outputs", .jarr (j.outputs.map encodeOut))]

/-- Encoding of a whole manifest (a JSON array of job objects). -/
def encodeManifest (jobs : List Job) : JVal :=
  .jarr (jobs.map encodeJob)

/-- Linear scan by slug over a list of interface values (first match). -/
def findSlug (slug : String) : List IfVal → Option IfVal
  | [] => none
  | v :: rest => if v.slug == slug then some v else findSlug slug rest

/-- The outputs of a job carrying the detection-map slug. -/
def detOutputs (j : Job) : List IfVal :=
  j.outputs.filter fun v => v.slug == "cspca-detection-map"

/-- The subject id a job resolves to, when it has the T2 input. -/
def jobSid (j : Job) : Option String :=
  (findSlug "transverse-t2-prostate-mri" j.inputs).map fun v => deriveSubjectId v.name

/-- The normalised detection-map key a job resolves to, when present. -/
def jobPk (j : Job) : Option String :=
  (findSlug "cspca-detection-map" j.outputs).map fun v => normPk v.name

/-- A job is well formed when it has the subject-identifying T2 input
and exactly one detection-map output. -/
def jobOkB (j : Job) : Bool :=
  (jobSid j).isSome && ((detOutputs j).length == 1)

/-- The (key, subject-id) pair each resolvable job contributes. -/
def manifestPairs (jobs : List Job) : List (String × String) :=
  jobs.filterMap fun j =>
    match jobPk j, jobSid j with
    | some pk, some sid => some (pk, sid)
    | _, _ => none

/-- A manifest is well formed when every job is well formed and the
normalised detection-map keys are pairwise distinct. -/
def wellFormedManifest (jobs : List Job) : Bool :=
  jobs.all jobOkB && nodupB ((manifestPairs jobs).map Prod.fst)

/-! ### Per-row resolution in `picai_gc_evaluator.load`

`load` scans the prediction folder (a DataFrame of rows with a `path`
and an image `hash`), then per row: looks the file name up in
`mapping_dict` (a `KeyError` when absent), reads the scalar likelihood
from `<row.path>/../../../cspca-case-level-likelihood.json`, and joins
the ground-truth directory with `<subject_id>.nii.gz`.  The likelihood
value type is a parameter `α` (a Python float in the source); the file
read is the function argument `loadCasePred`.  The `fileExists`
argument stands for the filesystem's existence predicate: the source
never consults it, which the resolution function's independence from it
expresses. -/

/-- Python `pathlib` `Path(p).name`: the part after the last slash. -/
def pathName (p : String) : String :=
  String.mk ((p.data.reverse.takeWhile fun c => !(c == '/')).reverse)

/-- Python `pathlib` `Path(p).parent` (one component stripped). -/
def pathParent (p : String) : String :=
  String.mk (((p.data.reverse.dropWhile fun c => !(c == '/')).drop 1).reverse)

/-- Python `pathlib` `dir / name`. -/
def pathJoin (dir nm : String) : String :=
  dir ++ "/" ++ nm

/-- One row of the predictions DataFrame as scanned from disk. -/
structure RawCase where
  path : String
  hash : Nat
deriving DecidableEq

/-- One fully resolved prediction row after `load`. -/
structure ResolvedRow (α : Type) where
  path : String
  hash : Nat
  subject_id : String
  cspca_case_level_likelihood : α
  ground_truth_path : String

/-- The per-row resolution of `picai_gc_evaluator.load`: subject id from
`mapping_dict[Path(row.path).name]`, likelihood from the sibling
`cspca-case-level-likelihood.json`, ground-truth path from the join
`gtDir / (subject_id + ".nii.gz")`. -/
def resolveRow {α : Type} (fileExists : String → Bool)
    (mapping : List (String × String)) (loadCasePred : String → α)
    (gtDir : String) (row : RawCase) : Except PyErr (ResolvedRow α) :=
  match lookupA mapping (pathName row.path) with
  | none => .error (.keyError (pathName row.path))
  | some sid =>
    .ok { path := row.path
          hash := row.hash
          subject_id := sid
          cspca_case_level_likelihood :=
            loadCasePred (pathJoin (pathParent (pathParent (pathParent row.path)))
              "cspca-case-level-likelihood.json")
          ground_truth_path := pathJoin gtDir (sid ++ ".nii.gz") }

/-! ### The scoring adapter `picai_gc_evaluator.score` -/

/-- One row of the sorted ground-truth DataFrame. -/
structure GtRow where
  path : String
  hash : Nat
deriving DecidableEq

/-- One row of the sorted predictions DataFrame as `score` reads it. -/
structure PredRow (α : Type) where
  path : String
  hash : Nat
  subject_id : String
  cspca_case_level_likelihood : α
  ground_truth_path : String

/-- The argument record of one call to the external
`picai_eval.evaluate`.  `y_true_postprocess` is the scorer's optional
label-postprocessing slot (a function over label values); `none` means
the caller did not pass one. -/
structure ScorerCall where
  y_det : List String
  y_true : List String
  subject_list : List String
  y_true_postprocess : Option (Int → Int)

/-- The object the external scorer returns: the case-level prediction
mapping the library derives by default, plus all its other fields,
opaque here (`raw`), which the adapter never touches. -/
structure Metrics (α : Type) where
  case_pred : List (String × α)
  raw : Nat

/-- The four accumulators of the collection loop in `score`. -/
structure Collected (α : Type) where
  gt_paths : List String
  pred_paths : List String
  subject_list : List String
  case_pred : List (String × α)

/-- The `for (gt_row, pred_row) in zip(...)` loop of `score`: assert the
frames are aligned, re-hash both images (`RuntimeError` on mismatch),
append the three path/id lists, and assign the case-level likelihood
into the `case_pred` dictionary. -/
def collectLoop {α : Type} (imgHash : String → Nat) (acc : Collected α) :
    List (GtRow × PredRow α) → Except PyErr (Collected α)
  | [] => .ok acc
  | (g, p) :: rest =>
    if !(p.ground_truth_path == g.path) then
      .error (.assertionError "Order mismatch gt and pred DataFrames!")
    else if !(imgHash g.path == g.hash) || !(imgHash p.path == p.hash) then
      .error (.runtimeError "Images do not match")
    else
      collectLoop imgHash
        { gt_paths := acc.gt_paths ++ [g.path]
          pred_paths := acc.pred_paths ++ [p.path]
          subject_list := acc.subject_list ++ [p.subject_id]
          case_pred := dictInsert acc.case_pred p.subject_id p.cspca_case_level_likelihood }
        rest

/-- The case-level prediction dictionary the loop builds, in isolation:
a left fold of Python dict assignment over the zipped rows. -/
def casePredFold {α : Type} (st : List (String × α)) :
    List (GtRow × PredRow α) → List (String × α)
  | [] => st
  | (_, p) :: rest => casePredFold (dictInsert st p.subject_id p.cspca_case_level_likelihood) rest

/-- The likelihood of the last zipped row carrying subject id `s`, when
one exists. -/
def lastHit {α : Type} (s : String) : List (GtRow × PredRow α) → Option α
  | [] => none
  | (_, p) :: rest =>
    match lastHit s rest with
    | some v => some v
    | none => if p.subject_id == s then some p.cspca_case_level_likelihood else none

/-- The method `picai_gc_evaluator.score`: run the collection loop, make the one
call to the external scorer (`evaluate(y_det=pred_paths,
y_true=gt_paths, subject_list=subject_list)` — no further arguments),
then overwrite the returned object's `case_pred` with the collected
dictionary.  The returned list records every scorer call made. -/
def score {α : Type} (imgHash : String → Nat) (scorer : ScorerCall → Metrics α)
    (gtRows : List GtRow) (predRows : List (PredRow α)) :
    Except PyErr (List ScorerCall × Metrics α) :=
  match collectLoop imgHash ⟨[], [], [], []⟩ (gtRows.zip predRows) with
  | .error e => .error e
  | .ok c =>
    let call : ScorerCall :=
      { y_det := c.pred_paths
        y_true := c.gt_paths
        subject_list := c.subject_list
        y_true_postprocess := none }
    let m := scorer call
    .ok ([call], { m with case_pred := c.case_pred })

/-! ### The surrounding evaluation driver -/

/-- Modelled from the spec: the evaluation driver is the external
`evalutils.ClassificationEvaluation` base class, absent from this
repository; the spec gives its control flow as "read → match all cases →
call scorer once → write", and `picai_gc_evaluator.__init__` in the
source configures its validation step explicitly with
`NumberOfCasesValidator(num_cases=100)`, which raises unless the number
of loaded cases equals the configured count.  This definition is that
validator. -/
def numberOfCasesValidate (expected actual : Nat) : Except PyErr Unit :=
  if actual == expected then .ok ()
  else .error (.validationError "Number of cases is not correct")

/-- Modelled from the spec: the driver's linear run — validate the
loaded ground-truth and prediction case counts with the configured
`NumberOfCasesValidator(num_cases=100)`, then run the scoring step and
hand its result to the metrics writer. -/
def evaluateDriver {μ : Type} (gtCount predCount : Nat)
    (scoreStep : Except PyErr μ) : Except PyErr μ :=
  match numberOfCasesValidate 100 gtCount with
  | .error e => .error e
  | .ok _ =>
    match numberOfCasesValidate 100 predCount with
    | .error e => .error e
    | .ok _ => scoreStep

/-! ### Typed reference forms of the matcher's folds -/

/-- Typed form of the output scan of one job: fold Python dict
assignment over the outputs carrying the detection-map slug. -/
def insertAllDet (st : List (String × String)) (sid : String) :
    List IfVal → List (String × String)
  | [] => st
  | v :: rest =>
    if v.slug == "cspca-detection-map" then
      insertAllDet (dictInsert st (normPk v.name) sid) sid rest
    else insertAllDet st sid rest

/-- Typed form of the whole manifest fold: insert each job's (key,
subject-id) pair in order. -/
def insertPairsL (st : List (String × String)) :
    List (String × String) → List (String × String)
  | [] => st
  | pr :: rest => insertPairsL (dictInsert st pr.1 pr.2) rest

/-! ### Concrete fixtures used by witnesses and counterexamples -/

/-- A well-formed one-job manifest (input image `x_t2w.mha`, detection
map `a`). -/
def jobW : Job :=
  ⟨[⟨"transverse-t2-prostate-mri", "x_t2w.mha"⟩], [⟨"cspca-detection-map", "a"⟩]⟩

/-- A job identical to `jobW` but with detection-map pk `b`: same input
image name, hence the same derived subject id. -/
def jobW2 : Job :=
  ⟨[⟨"transverse-t2-prostate-mri", "x_t2w.mha"⟩], [⟨"cspca-detection-map", "b"⟩]⟩

/-- A job with no input carrying the subject-identifying slug. -/
def jobNoIn : Job :=
  ⟨[], [⟨"cspca-detection-map", "a"⟩]⟩

/-- A job with the subject-identifying input but no output carrying the
detection-map slug. -/
def jobNoOut : Job :=
  ⟨[⟨"transverse-t2-prostate-mri", "x_t2w.mha"⟩], []⟩

/-- A ground-truth row for the concrete score runs. -/
def gtRow1 : GtRow := ⟨"g", 0⟩

/-- A second ground-truth row for the collision run. -/
def gtRow2 : GtRow := ⟨"h", 0⟩

/-- A prediction row aligned with `gtRow1`, subject `s`, likelihood 1. -/
def predRow1 : PredRow Int := ⟨"p", 0, "s", 1, "g"⟩

/-- A prediction row aligned with `gtRow2` carrying the same subject id
`s` as `predRow1` but likelihood 2: a subject-id collision. -/
def predRow2 : PredRow Int := ⟨"q", 0, "s", 2, "h"⟩

/-- A hash oracle under which every fixture row's stored hash matches. -/
def hashFix : String → Nat := fun _ => 0

/-- A concrete external scorer whose default case-level prediction
mapping (`("d", 0)`) differs from the collected one. -/
def scorerFix : ScorerCall → Metrics Int := fun _ => ⟨[("d", 0)], 7⟩

/-- The single call the one-row fixture run makes. -/
def callFix : ScorerCall := ⟨["p"], ["g"], ["s"], none⟩

/-- The metrics object the one-row fixture run returns. -/
def metricsFix : Metrics Int := ⟨[("s", 1)], 7⟩

/-- The single call the two-row collision fixture run makes. -/
def callFix2 : ScorerCall := ⟨["p", "q"], ["g", "h"], ["s", "s"], none⟩

/-- The metrics object of the collision run: the value 2 of the later
row has overwritten the value 1 of the earlier one. -/
def metricsFix2 : Metrics Int := ⟨[("s", 2)], 7⟩

/-- A raw prediction row for the load-resolution fixture. -/
def rawFix : RawCase := ⟨"a.mha", 0⟩

/-- The manifest mapping for the load-resolution fixture. -/
def mappingFix : List (String × String) := [("a.mha", "x")]

/-- The resolved row of the load-resolution fixture. -/
def resolvedFix : ResolvedRow Int :=
  { path := "a.mha"
    hash := 0
    subject_id := "x"
    cspca_case_level_likelihood := 0
    ground_truth_path := "/gt/x.nii.gz" }

/-! ## Helper lemmas -/

/-- A token that starts `t` also starts any extension of `t`. -/
lemma startsTok_append (ps : List Char) :
    ∀ t r : List Char, startsTok ps t = true → startsTok ps (t ++ r) = true := by
  induction ps with
  | nil => intro t r _; rfl
  | cons p ps ih =>
    intro t r h
    cases t with
    | nil => simp [startsTok] at h
    | cons c cs =>
      simp only [startsTok, Bool.and_eq_true] at h
      simp only [List.cons_append, startsTok, Bool.and_eq_true]
      exact ⟨h.1, ih cs r h.2⟩

/-- Every list extends its own split head. -/
lemma takeUntilTok_extend (pat : List Char) :
    ∀ l : List Char, ∃ r, l = takeUntilTok pat l ++ r := by
  intro l
  induction l with
  | nil => exact ⟨[], rfl⟩
  | cons c cs ih =>
    cases h : startsTok pat (c :: cs) with
    | true => exact ⟨c :: cs, by simp [takeUntilTok, h]⟩
    | false =>
      obtain ⟨r, hr⟩ := ih
      refine ⟨r, ?_⟩
      simp only [takeUntilTok, h, Bool.false_eq_true, if_false, List.cons_append]
      exact congrArg (c :: ·) hr

/-- A non-empty token never occurs in the split head it produced. -/
lemma occursTok_takeUntilTok (p : Char) (ps : List Char) :
    ∀ l : List Char, occursTok (p :: ps) (takeUntilTok (p :: ps) l) = false := by
  intro l
  induction l with
  | nil => rfl
  | cons c cs ih =>
    cases h : startsTok (p :: ps) (c :: cs) with
    | true =>
      rw [takeUntilTok, if_pos h]
      rfl
    | false =>
      rw [takeUntilTok, if_neg (by simp [h])]
      simp only [occursTok, Bool.or_eq_false_iff]
      refine ⟨?_, ih⟩
      cases hb : startsTok (p :: ps) (c :: takeUntilTok (p :: ps) cs) with
      | false => rfl
      | true =>
        exfalso
        obtain ⟨r, hr⟩ := takeUntilTok_extend (p :: ps) cs
        simp only [startsTok, Bool.and_eq_true] at hb
        have hcs : startsTok ps cs = true := by
          rw [hr]
          exact startsTok_append ps _ r hb.2
        have htr : startsTok (p :: ps) (c :: cs) = true := by
          simp [startsTok, hb.1, hcs]
        rw [h] at htr
        exact Bool.false_ne_true htr

/-- Splitting is the identity on token-free lists. -/
lemma takeUntilTok_of_not_occurs (pat : List Char) :
    ∀ l : List Char, occursTok pat l = false → takeUntilTok pat l = l := by
  intro l
  induction l with
  | nil => intro _; rfl
  | cons c cs ih =>
    intro h
    simp only [occursTok, Bool.or_eq_false_iff] at h
    simp only [takeUntilTok, h.1, Bool.false_eq_true, if_false]
    exact congrArg (c :: ·) (ih h.2)

/-- Splitting on a non-empty token is idempotent (list level). -/
lemma takeUntilTok_idem (p : Char) (ps : List Char) (l : List Char) :
    takeUntilTok (p :: ps) (takeUntilTok (p :: ps) l) = takeUntilTok (p :: ps) l :=
  takeUntilTok_of_not_occurs (p :: ps) _ (occursTok_takeUntilTok p ps l)

/-- A token starts its own extension. -/
lemma startsTok_self_append (p r : List Char) : startsTok p (p ++ r) = true := by
  induction p with
  | nil => rfl
  | cons c cs ih => simp [startsTok, ih]

/-- Appending a suffix makes `pyEndsWith` hold. -/
lemma pyEndsWith_append (s t : String) : pyEndsWith (s ++ t) t = true := by
  simp only [pyEndsWith, String.data_append, List.reverse_append]
  exact startsTok_self_append t.data.reverse s.data.reverse

/-- Every normalised detection-map key ends with `".mha"`. -/
lemma pyEndsWith_normPk (pk : String) : pyEndsWith (normPk pk) ".mha" = true := by
  unfold normPk
  cases h : pyEndsWith pk ".mha" with
  | true => simp [h]
  | false => simp [h, pyEndsWith_append]

/-- Python dict lookup after assignment. -/
lemma lookupA_dictInsert {α : Type} :
    ∀ (st : List (String × α)) (k : String) (v : α) (key : String),
      lookupA (dictInsert st k v) key = if key == k then some v else lookupA st key := by
  intro st k v key
  induction st with
  | nil =>
    by_cases h : key = k
    · subst h; simp [dictInsert, lookupA]
    · have b1 : (k == key) = false := beq_eq_false_iff_ne.mpr fun hh => h hh.symm
      have b2 : (key == k) = false := beq_eq_false_iff_ne.mpr h
      simp [dictInsert, lookupA, b1, b2]
  | cons kv rest ih =>
    obtain ⟨k0, v0⟩ := kv
    by_cases h0 : k0 = k
    · subst h0
      by_cases h1 : k0 = key
      · subst h1; simp [dictInsert, lookupA]
      · have b1 : (k0 == key) = false := beq_eq_false_iff_ne.mpr h1
        have b2 : (key == k0) = false := beq_eq_false_iff_ne.mpr fun hh => h1 hh.symm
        simp [dictInsert, lookupA, b1, b2]
    · have b0 : (k0 == k) = false := beq_eq_false_iff_ne.mpr h0
      by_cases h1 : k0 = key
      · subst h1
        have b2 : (k0 == k) = false := b0
        simp [dictInsert, lookupA, b0, beq_eq_false_iff_ne.mpr fun hh : k0 = k => h0 hh]
      · have b1 : (k0 == key) = false := beq_eq_false_iff_ne.mpr h1
        simp [dictInsert, lookupA, b0, b1, ih]

/-- Membership after a dict assignment: either an old pair or the new key. -/
lemma mem_dictInsert {α : Type} :
    ∀ (st : List (String × α)) (k : String) (v : α) (kv : String × α),
      kv ∈ dictInsert st k v → kv ∈ st ∨ kv.1 = k := by
  intro st k v kv
  induction st with
  | nil =>
    intro h
    simp only [dictInsert, List.mem_singleton] at h
    exact Or.inr (by simp [h])
  | cons kv0 rest ih =>
    obtain ⟨k0, v0⟩ := kv0
    intro h
    by_cases h0 : k0 = k
    · subst h0
      simp only [dictInsert, beq_self_eq_true, if_true, List.mem_cons] at h
      rcases h with h | h
      · exact Or.inr (by simp [h])
      · exact Or.inl (List.mem_cons_of_mem _ h)
    · simp only [dictInsert, beq_eq_false_iff_ne.mpr h0, Bool.false_eq_true, if_false,
        List.mem_cons] at h
      rcases h with h | h
      · exact Or.inl (by simp [h])
      · rcases ih h with h' | h'
        · exact Or.inl (List.mem_cons_of_mem _ h')
        · exact Or.inr h'

/-- Assigning a fresh key appends the pair at the end. -/
lemma dictInsert_fresh {α : Type} :
    ∀ (st : List (String × α)) (k : String) (v : α),
      containsB (st.map Prod.fst) k = false → dictInsert st k v = st ++ [(k, v)] := by
  intro st k v
  induction st with
  | nil => intro _; rfl
  | cons kv0 rest ih =>
    obtain ⟨k0, v0⟩ := kv0
    intro h
    simp only [List.map_cons, containsB, Bool.or_eq_false_iff] at h
    simp only [dictInsert, h.1, Bool.false_eq_true, if_false, List.cons_append]
    exact congrArg _ (ih h.2)

/-- Characterisation of a failed membership test. -/
lemma containsB_eq_false_iff :
    ∀ (l : List String) (x : String), containsB l x = false ↔ ∀ y ∈ l, y ≠ x := by
  intro l x
  induction l with
  | nil => simp [containsB]
  | cons y ys ih => simp [containsB, ih]

/-- Unfolding of the input scan over one encoded input. -/
lemma scanInputsT2_encode_cons (v : IfVal) (l : List JVal) :
    scanInputsT2 (encodeIn v :: l) =
      if v.slug == "transverse-t2-prostate-mri" then
        .ok (some (deriveSubjectId v.name))
      else scanInputsT2 l := by
  obtain ⟨s, n⟩ := v
  by_cases h : s = "transverse-t2-prostate-mri"
  · subst h; rfl
  · have hb : (s == "transverse-t2-prostate-mri") = false := beq_eq_false_iff_ne.mpr h
    simp [scanInputsT2, encodeIn, pySub, lookupA, jvalEqStr, hb]

/-- The input scan over encoded inputs is the typed linear slug scan. -/
lemma scanInputsT2_encode : ∀ ivs : List IfVal,
    scanInputsT2 (ivs.map encodeIn) =
      .ok ((findSlug "transverse-t2-prostate-mri" ivs).map fun v => deriveSubjectId v.name) := by
  intro ivs
  induction ivs with
  | nil => rfl
  | cons v rest ih =>
    rw [List.map_cons, scanInputsT2_encode_cons]
    by_cases h : v.slug = "transverse-t2-prostate-mri"
    · simp [findSlug, h]
    · simp [findSlug, beq_eq_false_iff_ne.mpr h, ih]

/-- Unfolding of the output scan over one encoded output. -/
lemma scanOutputsDet_encode_cons (st : List (String × String)) (sid : String)
    (v : IfVal) (l : List JVal) :
    scanOutputsDet st sid (encodeOut v :: l) =
      if v.slug == "cspca-detection-map" then
        scanOutputsDet (dictInsert st (normPk v.name) sid) sid l
      else scanOutputsDet st sid l := by
  obtain ⟨s, n⟩ := v
  by_cases h : s = "cspca-detection-map"
  · subst h; rfl
  · have hb : (s == "cspca-detection-map") = false := beq_eq_false_iff_ne.mpr h
    simp [scanOutputsDet, encodeOut, pySub, lookupA, jvalEqStr, hb]

/-- The output scan over encoded outputs is the typed fold. -/
lemma scanOutputsDet_encode (sid : String) :
    ∀ (ovs : List IfVal) (st : List (String × String)),
      scanOutputsDet st sid (ovs.map encodeOut) = .ok (insertAllDet st sid ovs) := by
  intro ovs
  induction ovs with
  | nil => intro st; rfl
  | cons v rest ih =>
    intro st
    rw [List.map_cons, scanOutputsDet_encode_cons]
    by_cases h : v.slug = "cspca-detection-map"
    · simp [insertAllDet, h, ih]
    · simp [insertAllDet, beq_eq_false_iff_ne.mpr h, ih]

/-- Processing one encoded job: raise `ValueError` exactly when the
subject-identifying input is missing, otherwise fold the job's
detection-map outputs into the dictionary. -/
lemma processEntry_encode (st : List (String × String)) (j : Job) :
    processEntry st (encodeJob j) =
      match jobSid j with
      | none => .error (.valueError ("No filename found for entry: " ++ pyStrOf (encodeJob j)))
      | some sid => .ok (insertAllDet st sid j.outputs) := by
  cases hf : findSlug "transverse-t2-prostate-mri" j.inputs with
  | none =>
    have hscan : scanInputsT2 (j.inputs.map encodeIn) = .ok none := by
      rw [scanInputsT2_encode, hf]; rfl
    simp [processEntry, encodeJob, pySub, lookupA, pyIter, hscan, jobSid, hf]
  | some v =>
    have hscan : scanInputsT2 (j.inputs.map encodeIn) =
        .ok (some (deriveSubjectId v.name)) := by
      rw [scanInputsT2_encode, hf]; rfl
    simp [processEntry, encodeJob, pySub, lookupA, pyIter, hscan, jobSid, hf,
      scanOutputsDet_encode]

/-- The linear slug scan returns the head of the slug filter. -/
lemma findSlug_eq_head (slug : String) :
    ∀ l : List IfVal, findSlug slug l = (l.filter fun v => v.slug == slug).head? := by
  intro l
  induction l with
  | nil => rfl
  | cons v rest ih =>
    cases hv : (v.slug == slug) with
    | true => simp [findSlug, List.filter_cons, hv]
    | false => simp [findSlug, List.filter_cons, hv, ih]

/-- Folding a job with no detection-map output changes nothing. -/
lemma insertAllDet_no_det (sid : String) :
    ∀ (outs : List IfVal) (st : List (String × String)),
      (outs.filter fun v => v.slug == "cspca-detection-map") = [] →
      insertAllDet st sid outs = st := by
  intro outs
  induction outs with
  | nil => intro st _; rfl
  | cons v rest ih =>
    intro st h
    cases hv : (v.slug == "cspca-detection-map") with
    | true => simp [List.filter_cons, hv] at h
    | false =>
      simp only [List.filter_cons, hv, Bool.false_eq_true, if_false] at h
      simp [insertAllDet, hv, ih _ h]

/-- Folding a job with exactly one detection-map output is one dict
assignment. -/
lemma insertAllDet_single (sid : String) :
    ∀ (outs : List IfVal) (o : IfVal) (st : List (String × String)),
      (outs.filter fun v => v.slug == "cspca-detection-map") = [o] →
      insertAllDet st sid outs = dictInsert st (normPk o.name) sid := by
  intro outs
  induction outs with
  | nil => intro o st h; simp at h
  | cons v rest ih =>
    intro o st h
    cases hv : (v.slug == "cspca-detection-map") with
    | true =>
      simp only [List.filter_cons, hv, if_true] at h
      obtain ⟨rfl, hrest⟩ := List.cons_eq_cons.mp h
      simp [insertAllDet, hv, insertAllDet_no_det sid rest _ hrest]
    | false =>
      simp only [List.filter_cons, hv, Bool.false_eq_true, if_false] at h
      simp [insertAllDet, hv, ih o _ h]

/-- A well-formed job resolves to its detection output and subject id. -/
lemma jobOkB_resolves (j : Job) (h : jobOkB j = true) :
    ∃ o sid, detOutputs j = [o] ∧ jobPk j = some (normPk o.name) ∧ jobSid j = some sid := by
  simp only [jobOkB, Bool.and_eq_true] at h
  obtain ⟨hsid, hdet⟩ := h
  obtain ⟨sid, hsid'⟩ := Option.isSome_iff_exists.mp hsid
  have hlen : (detOutputs j).length = 1 := by simpa using hdet
  obtain ⟨o, ho⟩ := List.length_eq_one.mp hlen
  refine ⟨o, sid, ho, ?_, hsid'⟩
  have hfs : findSlug "cspca-detection-map" j.outputs = some o := by
    rw [findSlug_eq_head]
    show (detOutputs j).head? = some o
    rw [ho]; rfl
  simp [jobPk, hfs]

/-- Processing the encoded jobs of a manifest whose jobs are all well
formed folds their pairs into the dictionary, in order. -/
lemma processEntries_encode_wf : ∀ (jobs : List Job) (st : List (String × String)),
    jobs.all jobOkB = true →
    processEntries st (jobs.map encodeJob) = .ok (insertPairsL st (manifestPairs jobs)) := by
  intro jobs
  induction jobs with
  | nil => intro st _; rfl
  | cons j rest ih =>
    intro st hall
    simp only [List.all_cons, Bool.and_eq_true] at hall
    obtain ⟨hj, hrest⟩ := hall
    obtain ⟨o, sid, ho, hpk, hsid⟩ := jobOkB_resolves j hj
    have hone : processEntry st (encodeJob j) = .ok (dictInsert st (normPk o.name) sid) := by
      rw [processEntry_encode, hsid]
      show Except.ok (insertAllDet st sid j.outputs) = _
      rw [insertAllDet_single sid j.outputs o st ho]
    have hmp : manifestPairs (j :: rest) = (normPk o.name, sid) :: manifestPairs rest := by
      simp [manifestPairs, List.filterMap_cons, hpk, hsid]
    rw [List.map_cons, processEntries, hone, hmp, insertPairsL]
    exact ih _ hrest

/-- Every well-formed job contributes exactly one pair. -/
lemma manifestPairs_length : ∀ jobs : List Job, jobs.all jobOkB = true →
    (manifestPairs jobs).length = jobs.length := by
  intro jobs
  induction jobs with
  | nil => intro _; rfl
  | cons j rest ih =>
    intro hall
    simp only [List.all_cons, Bool.and_eq_true] at hall
    obtain ⟨o, sid, _, hpk, hsid⟩ := jobOkB_resolves j hall.1
    have hmp : manifestPairs (j :: rest) = (normPk o.name, sid) :: manifestPairs rest := by
      simp [manifestPairs, List.filterMap_cons, hpk, hsid]
    rw [hmp, List.length_cons, List.length_cons, ih hall.2]

/-- Inserting pairwise-fresh pairs into a dictionary appends them. -/
lemma insertPairsL_fresh : ∀ (pairs st : List (String × String)),
    (∀ pr ∈ pairs, containsB (st.map Prod.fst) pr.1 = false) →
    nodupB (pairs.map Prod.fst) = true →
    insertPairsL st pairs = st ++ pairs := by
  intro pairs
  induction pairs with
  | nil => intro st _ _; simp [insertPairsL]
  | cons pr rest ih =>
    intro st hfresh hnd
    simp only [List.map_cons, nodupB, Bool.and_eq_true, Bool.not_eq_eq_eq_not,
      Bool.not_true] at hnd
    obtain ⟨hnd1, hnd2⟩ := hnd
    have h1 : containsB (st.map Prod.fst) pr.1 = false := hfresh pr (by simp)
    have hfresh' : ∀ pr' ∈ rest, containsB ((st ++ [pr]).map Prod.fst) pr'.1 = false := by
      intro pr' hpr'
      rw [List.map_append, containsB_eq_false_iff]
      intro y hy
      rcases List.mem_append.mp hy with hy | hy
      · exact (containsB_eq_false_iff _ _).mp (hfresh pr' (List.mem_cons_of_mem _ hpr')) y hy
      · simp only [List.map_cons, List.map_nil, List.mem_singleton] at hy
        subst hy
        have hne : pr'.1 ≠ pr.1 :=
          (containsB_eq_false_iff _ _).mp hnd1 pr'.1 (List.mem_map_of_mem _ hpr')
        exact fun hc => hne hc.symm
    rw [insertPairsL, dictInsert_fresh st pr.1 pr.2 h1, ih _ hfresh' hnd2,
      List.append_assoc]
    rfl

/-- When some job of an encoded manifest has no input carrying the
subject-identifying slug, the entry fold raises a `ValueError`. -/
lemma processEntries_missing_input : ∀ (jobs : List Job) (st : List (String × String)),
    (∃ j, j ∈ jobs ∧ findSlug "transverse-t2-prostate-mri" j.inputs = none) →
    ∃ msg, processEntries st (jobs.map encodeJob) = .error (.valueError msg) := by
  intro jobs
  induction jobs with
  | nil =>
    intro st h
    obtain ⟨j, hj, _⟩ := h
    exact absurd hj (List.not_mem_nil j)
  | cons j0 rest ih =>
    intro st h
    cases hf : findSlug "transverse-t2-prostate-mri" j0.inputs with
    | none =>
      refine ⟨"No filename found for entry: " ++ pyStrOf (encodeJob j0), ?_⟩
      have h0 : processEntry st (encodeJob j0) =
          .error (.valueError ("No filename found for entry: " ++ pyStrOf (encodeJob j0))) := by
        rw [processEntry_encode]
        simp [jobSid, hf]
      rw [List.map_cons, processEntries, h0]
    | some v =>
      obtain ⟨j, hj, hjn⟩ := h
      rcases List.mem_cons.mp hj with rfl | hj'
      · rw [hf] at hjn; exact absurd hjn (by simp)
      · cases hs : scanInputsT2 (j0.inputs.map encodeIn) with
        | error e =>
          rw [scanInputsT2_encode, hf] at hs
          exact absurd hs (by simp)
        | ok o =>
          have h0 : processEntry st (encodeJob j0) =
              .ok (insertAllDet st (deriveSubjectId v.name) j0.outputs) := by
            rw [processEntry_encode]
            simp [jobSid, hf]
          obtain ⟨msg, hmsg⟩ := ih (insertAllDet st (deriveSubjectId v.name) j0.outputs)
            ⟨j, hj', hjn⟩
          exact ⟨msg, by rw [List.map_cons, processEntries, h0]; exact hmsg⟩

/-- Keys already in the dictionary, or the inserted key, are the only
keys after an output-scan step; all of them end with `".mha"`. -/
lemma scanOutputsDet_keys : ∀ (xs : List JVal) (st st' : List (String × String)) (sid : String),
    scanOutputsDet st sid xs = .ok st' →
    (∀ kv ∈ st, pyEndsWith kv.1 ".mha" = true) →
    ∀ kv ∈ st', pyEndsWith kv.1 ".mha" = true := by
  intro xs
  induction xs with
  | nil =>
    intro st st' sid hok hinv
    simp only [scanOutputsDet] at hok
    cases hok
    exact hinv
  | cons v rest ih =>
    intro st st' sid hok hinv
    simp only [scanOutputsDet] at hok
    split at hok
    · cases hok
    · split at hok
      · cases hok
      · split at hok
        · split at hok
          · cases hok
          · split at hok
            · cases hok
            · refine ih _ _ _ hok ?_
              intro kv hkv
              rcases mem_dictInsert _ _ _ _ hkv with h | h
              · exact hinv kv h
              · rw [h]
                exact pyEndsWith_normPk _
        · exact ih _ _ _ hok hinv

/-- The `".mha"` key invariant passes through one manifest entry. -/
lemma processEntry_keys (st st' : List (String × String)) (e : JVal)
    (hok : processEntry st e = .ok st')
    (hinv : ∀ kv ∈ st, pyEndsWith kv.1 ".mha" = true) :
    ∀ kv ∈ st', pyEndsWith kv.1 ".mha" = true := by
  simp only [processEntry] at hok
  split at hok
  · cases hok
  · split at hok
    · cases hok
    · split at hok
      · cases hok
      · cases hok
      · split at hok
        · cases hok
        · split at hok
          · cases hok
          · exact scanOutputsDet_keys _ _ _ _ hok hinv

/-- The `".mha"` key invariant passes through the whole entry fold. -/
lemma processEntries_keys : ∀ (es : List JVal) (st st' : List (String × String)),
    processEntries st es = .ok st' →
    (∀ kv ∈ st, pyEndsWith kv.1 ".mha" = true) →
    ∀ kv ∈ st', pyEndsWith kv.1 ".mha" = true := by
  intro es
  induction es with
  | nil =>
    intro st st' hok hinv
    simp only [processEntries] at hok
    cases hok
    exact hinv
  | cons e rest ih =>
    intro st st' hok hinv
    simp only [processEntries] at hok
    split at hok
    · cases hok
    · rename_i st0 h0
      exact ih _ _ hok (processEntry_keys _ _ _ h0 hinv)

/-- Characterisation of a successful collection loop: the three lists
are the accumulators extended with the per-row projections in order,
and the dictionary is the dict fold. -/
lemma collectLoop_fields {α : Type} (imgHash : String → Nat) :
    ∀ (rows : List (GtRow × PredRow α)) (acc res : Collected α),
      collectLoop imgHash acc rows = .ok res →
      res.gt_paths = acc.gt_paths ++ rows.map (fun r => r.1.path) ∧
      res.pred_paths = acc.pred_paths ++ rows.map (fun r => r.2.path) ∧
      res.subject_list = acc.subject_list ++ rows.map (fun r => r.2.subject_id) ∧
      res.case_pred = casePredFold acc.case_pred rows := by
  intro rows
  induction rows with
  | nil =>
    intro acc res hok
    simp only [collectLoop] at hok
    cases hok
    simp [casePredFold]
  | cons gp rest ih =>
    obtain ⟨g, p⟩ := gp
    intro acc res hok
    simp only [collectLoop] at hok
    split at hok
    · cases hok
    · split at hok
      · cases hok
      · obtain ⟨h1, h2, h3, h4⟩ := ih _ _ hok
        refine ⟨?_, ?_, ?_, ?_⟩
        · rw [h1, List.map_cons, List.append_assoc]; rfl
        · rw [h2, List.map_cons, List.append_assoc]; rfl
        · rw [h3, List.map_cons, List.append_assoc]; rfl
        · rw [h4]; rfl

/-- Characterisation of a successful `score` run: exactly one scorer
call, carrying the full zipped projections and no postprocess function,
and a returned object whose `case_pred` is the collected dictionary. -/
lemma score_ok {α : Type} (imgHash : String → Nat) (scorer : ScorerCall → Metrics α)
    (gtRows : List GtRow) (predRows : List (PredRow α))
    (calls : List ScorerCall) (m : Metrics α)
    (hok : score imgHash scorer gtRows predRows = .ok (calls, m)) :
    calls = [{ y_det := (gtRows.zip predRows).map (fun r => r.2.path)
               y_true := (gtRows.zip predRows).map (fun r => r.1.path)
               subject_list := (gtRows.zip predRows).map (fun r => r.2.subject_id)
               y_true_postprocess := none }] ∧
      m.case_pred = casePredFold [] (gtRows.zip predRows) := by
  simp only [score] at hok
  split at hok
  · cases hok
  · rename_i c hc
    obtain ⟨h1, h2, h3, h4⟩ := collectLoop_fields imgHash _ _ _ hc
    simp only [List.nil_append] at h1 h2 h3
    cases hok
    exact ⟨by rw [h1, h2, h3], h4⟩

/-- Dictionary lookup after the case-prediction fold: the value of the
last zipped row carrying the looked-up subject id wins. -/
lemma lookupA_casePredFold {α : Type} :
    ∀ (rows : List (GtRow × PredRow α)) (st : List (String × α)) (s : String),
      lookupA (casePredFold st rows) s =
        match lastHit s rows with
        | some v => some v
        | none => lookupA st s := by
  intro rows
  induction rows with
  | nil => intro st s; rfl
  | cons gp rest ih =>
    obtain ⟨g, p⟩ := gp
    intro st s
    simp only [casePredFold, lastHit]
    rw [ih]
    cases hl : lastHit s rest with
    | some v => rfl
    | none =>
      rw [lookupA_dictInsert]
      by_cases h : s = p.subject_id
      · subst h
        simp
      · have b1 : (s == p.subject_id) = false := beq_eq_false_iff_ne.mpr h
        have b2 : (p.subject_id == s) = false :=
          beq_eq_false_iff_ne.mpr fun hh => h hh.symm
        simp [b1, b2]

/-! ## Claim theorems -/

/-- C1 (amended): for every well-formed manifest with N jobs the matcher
produces exactly N case records and their detection-map keys are
pairwise distinct; the derived subject ids of those records, however,
are not necessarily pairwise distinct (see the counterexample). -/
theorem c1_matcher_record_count (jobs : List Job)
    (h : wellFormedManifest jobs = true) :
    load_predictions_json (encodeManifest jobs) = .ok (manifestPairs jobs) ∧
    (manifestPairs jobs).length = jobs.length ∧
    nodupB ((manifestPairs jobs).map Prod.fst) = true := by
  simp only [wellFormedManifest, Bool.and_eq_true] at h
  obtain ⟨hall, hnd⟩ := h
  refine ⟨?_, manifestPairs_length jobs hall, hnd⟩
  show processEntries [] (jobs.map encodeJob) = _
  rw [processEntries_encode_wf jobs [] hall,
    insertPairsL_fresh (manifestPairs jobs) [] (fun pr _ => rfl) hnd]
  rfl

/-- C1 witness: the amended theorem evaluated on a concrete well-formed
one-job manifest. -/
theorem c1_matcher_record_count_witness :
    wellFormedManifest [jobW] = true ∧
    (load_predictions_json (encodeManifest [jobW]) = .ok (manifestPairs [jobW]) ∧
     (manifestPairs [jobW]).length = [jobW].length ∧
     nodupB ((manifestPairs [jobW]).map Prod.fst) = true) :=
  ⟨rfl, c1_matcher_record_count [jobW] rfl⟩

/-- C1 counterexample: a well-formed two-job manifest whose jobs name
the same input image yields two case records whose subject ids are
equal, refuting the claimed pairwise distinctness of subject ids. -/
theorem c1_subject_id_collision_counterexample :
    wellFormedManifest [jobW, jobW2] = true ∧
    load_predictions_json (encodeManifest [jobW, jobW2]) =
      .ok [("a.mha", "x"), ("b.mha", "x")] ∧
    nodupB ([("a.mha", "x"), ("b.mha", "x")].map Prod.snd) = false :=
  ⟨rfl, rfl, rfl⟩

/-- C2 (amended): a successful `score` run makes exactly one call to the
external scorer, passing the full lists of prediction paths,
ground-truth paths and subject ids of the zipped rows — and passing no
label-binarization function (the postprocess slot of the call is
empty). -/
theorem c2_single_call_full_lists {α : Type} (imgHash : String → Nat)
    (scorer : ScorerCall → Metrics α) (gtRows : List GtRow)
    (predRows : List (PredRow α)) (calls : List ScorerCall) (m : Metrics α)
    (h : score imgHash scorer gtRows predRows = .ok (calls, m)) :
    calls = [{ y_det := (gtRows.zip predRows).map (fun r => r.2.path)
               y_true := (gtRows.zip predRows).map (fun r => r.1.path)
               subject_list := (gtRows.zip predRows).map (fun r => r.2.subject_id)
               y_true_postprocess := none }] :=
  (score_ok imgHash scorer gtRows predRows calls m h).1

/-- C2 witness: the amended theorem evaluated on a concrete one-row run. -/
theorem c2_single_call_full_lists_witness :
    [callFix] = [{ y_det := ([gtRow1].zip [predRow1]).map (fun r => r.2.path)
                   y_true := ([gtRow1].zip [predRow1]).map (fun r => r.1.path)
                   subject_list := ([gtRow1].zip [predRow1]).map (fun r => r.2.subject_id)
                   y_true_postprocess := none }] :=
  c2_single_call_full_lists hashFix scorerFix [gtRow1] [predRow1] [callFix] metricsFix rfl

/-- C2 counterexample: on a concrete run the single scorer call carries
no label-binarization function at all (its postprocess slot is `none`),
refuting the claim that one is passed and applied to ground-truth label
values. -/
theorem c2_no_label_binarization_counterexample :
    (score hashFix scorerFix [gtRow1] [predRow1]).map
        (fun r => r.1.map fun c => c.y_true_postprocess.isSome) = .ok [false] :=
  rfl

/-- C3 (amended): a run over a manifest describing zero jobs does not
succeed: the configured `NumberOfCasesValidator` demands exactly 100
cases, so the driver raises during validation, before any scoring, and
no metrics output is produced. -/
theorem c3_zero_jobs_run_fails {μ : Type} (g : Nat) (s : Except PyErr μ) :
    evaluateDriver g 0 s = .error (.validationError "Number of cases is not correct") := by
  unfold evaluateDriver numberOfCasesValidate
  cases hg : (g == 100) <;> simp [hg]

/-- C3 counterexample: with zero prediction cases the driver errors
instead of writing an output whose `num_cases` is 0. -/
theorem c3_zero_jobs_counterexample :
    evaluateDriver 100 0 (Except.ok [("num_cases", (0 : Nat))]) =
      .error (.validationError "Number of cases is not correct") :=
  rfl

/-- C4 (amended): the slug lookup is a linear scan; a job with no input
matching the subject-identifying slug makes the matcher raise a
`ValueError` (hence before any scoring call), but a job with no output
matching the detection-map slug is silently skipped: the matcher
succeeds and simply contributes no case record. -/
theorem c4_missing_slug_behaviour :
    (∀ jobs : List Job,
        (∃ j, j ∈ jobs ∧ findSlug "transverse-t2-prostate-mri" j.inputs = none) →
        ∃ msg, load_predictions_json (encodeManifest jobs) = .error (.valueError msg)) ∧
    load_predictions_json (encodeManifest [jobNoOut]) = .ok [] := by
  constructor
  · intro jobs hex
    obtain ⟨msg, hmsg⟩ := processEntries_missing_input jobs [] hex
    exact ⟨msg, hmsg⟩
  · rfl

/-- C4 witness: the missing-input half applied to a concrete one-job
manifest lacking the subject-identifying input slug. -/
theorem c4_missing_slug_behaviour_witness :
    ∃ msg, load_predictions_json (encodeManifest [jobNoIn]) = .error (.valueError msg) :=
  c4_missing_slug_behaviour.1 [jobNoIn] ⟨jobNoIn, by simp, rfl⟩

/-- C4 counterexample: a job with the subject-identifying input but no
detection-map output does not make the pipeline fail — the matcher
returns successfully with no record, refuting the claim that every
missing required slug produces a descriptive error. -/
theorem c4_missing_output_slug_counterexample :
    load_predictions_json (encodeManifest [jobNoOut]) = .ok [] ∧
    (detOutputs jobNoOut).length = 0 :=
  ⟨rfl, rfl⟩

/-- C5 (amended): `load_predictions_json` raises a `TypeError` for a
float document (the explicit check), for the non-iterable scalars
(int, bool, null), and for any non-empty string scalar (whose first
character is subscripted as a one-character string) — but the empty
string scalar is iterated as zero entries and the function succeeds,
returning the empty mapping. -/
theorem c5_scalar_documents :
    load_predictions_json (JVal.jstr "") = .ok [] ∧
    (∀ lit, load_predictions_json (.jfloat lit) =
      .error (.typeError "entries of type float for file")) ∧
    (∀ n : Int, load_predictions_json (.jint n) =
      .error (.typeError "object is not iterable")) ∧
    (∀ b : Bool, load_predictions_json (.jbool b) =
      .error (.typeError "object is not iterable")) ∧
    load_predictions_json .jnull = .error (.typeError "object is not iterable") ∧
    (∀ (c : Char) (cs : List Char),
      load_predictions_json (.jstr (String.mk (c :: cs))) =
        .error (.typeError "string indices must be integers")) :=
  ⟨rfl, fun _ => rfl, fun _ => rfl, fun _ => rfl, rfl, fun _ _ => rfl⟩

/-- C5 counterexample: the empty JSON string is a bare scalar on which
`load_predictions_json` succeeds instead of failing. -/
theorem c5_empty_string_scalar_counterexample :
    isScalarJ (JVal.jstr "") = true ∧ load_predictions_json (JVal.jstr "") = .ok [] :=
  ⟨rfl, rfl⟩

/-- C6: in the case-level-prediction mapping built by a successful
`score` run, looking up a subject id returns the likelihood of the
last zipped row carrying that id — a later entry with the same derived
subject id overwrites the earlier one. -/
theorem c6_later_entry_wins {α : Type} (imgHash : String → Nat)
    (scorer : ScorerCall → Metrics α) (gtRows : List GtRow)
    (predRows : List (PredRow α)) (calls : List ScorerCall) (m : Metrics α)
    (h : score imgHash scorer gtRows predRows = .ok (calls, m)) (s : String) :
    lookupA m.case_pred s = lastHit s (gtRows.zip predRows) := by
  rw [(score_ok imgHash scorer gtRows predRows calls m h).2, lookupA_casePredFold]
  cases hl : lastHit s (gtRows.zip predRows) <;> simp [lookupA]

/-- C6 witness: a concrete run with two rows sharing subject id `s`
(likelihoods 1 then 2): the mapping holds the later value 2. -/
theorem c6_later_entry_wins_witness :
    lookupA metricsFix2.case_pred "s" =
      lastHit "s" ([gtRow1, gtRow2].zip [predRow1, predRow2]) ∧
    lastHit "s" ([gtRow1, gtRow2].zip [predRow1, predRow2]) = some 2 :=
  ⟨c6_later_entry_wins hashFix scorerFix [gtRow1, gtRow2] [predRow1, predRow2]
      [callFix2] metricsFix2 rfl "s", rfl⟩

/-- C7: whatever case-level prediction mapping the external scorer
returns, the adapter's result carries the externally collected
per-subject likelihood mapping as `case_pred`. -/
theorem c7_case_pred_replaced {α : Type} (imgHash : String → Nat)
    (scorer : ScorerCall → Metrics α) (gtRows : List GtRow)
    (predRows : List (PredRow α)) (calls : List ScorerCall) (m : Metrics α)
    (h : score imgHash scorer gtRows predRows = .ok (calls, m)) :
    m.case_pred = casePredFold [] (gtRows.zip predRows) :=
  (score_ok imgHash scorer gtRows predRows calls m h).2

/-- C7 witness: on the concrete run the scorer's default mapping
`[("d", 0)]` is replaced by the collected `[("s", 1)]`. -/
theorem c7_case_pred_replaced_witness :
    metricsFix.case_pred = casePredFold [] ([gtRow1].zip [predRow1]) :=
  c7_case_pred_replaced hashFix scorerFix [gtRow1] [predRow1] [callFix] metricsFix rfl

/-- C8: subject-id derivation is idempotent — stripping the `"_t2w"`
suffix from an already-derived id returns it unchanged — because a
derived id never contains the suffix token. -/
theorem c8_derive_idempotent (f : String) :
    deriveSubjectId (deriveSubjectId f) = deriveSubjectId f ∧
    occursTok "_t2w".data (deriveSubjectId f).data = false :=
  ⟨congrArg String.mk (takeUntilTok_idem '_' ['t', '2', 'w'] f.data),
   occursTok_takeUntilTok '_' ['t', '2', 'w'] f.data⟩

/-- C9: the ground-truth path assigned during row resolution is the
ground-truth directory joined with the row's subject id followed by
`".nii.gz"`, and the resolution is independent of the
filesystem-existence predicate (no existence check is performed). -/
theorem c9_gt_path_construction {α : Type} (fe1 fe2 : String → Bool)
    (mapping : List (String × String)) (loadCasePred : String → α)
    (gtDir : String) (row : RawCase) (r : ResolvedRow α)
    (h : resolveRow fe1 mapping loadCasePred gtDir row = .ok r) :
    r.ground_truth_path = gtDir ++ "/" ++ (r.subject_id ++ ".nii.gz") ∧
    resolveRow fe2 mapping loadCasePred gtDir row =
      resolveRow fe1 mapping loadCasePred gtDir row := by
  refine ⟨?_, rfl⟩
  simp only [resolveRow] at h
  split at h
  · cases h
  · cases h
    rfl

/-- C9 witness: the theorem evaluated on a concrete resolved row. -/
theorem c9_gt_path_construction_witness :
    resolvedFix.ground_truth_path = "/gt" ++ "/" ++ (resolvedFix.subject_id ++ ".nii.gz") ∧
    resolveRow (fun _ => true) mappingFix (fun _ => (0 : Int)) "/gt" rawFix =
      resolveRow (fun _ => false) mappingFix (fun _ => (0 : Int)) "/gt" rawFix :=
  c9_gt_path_construction (fun _ => false) (fun _ => true) mappingFix (fun _ => (0 : Int))
    "/gt" rawFix resolvedFix rfl

/-- C10: every key of the mapping returned by `load_predictions_json`
ends with `".mha"` (a pk already ending with it is kept as-is,
otherwise `".mha"` is appended before insertion — the `normPk`
normalisation). -/
theorem c10_keys_end_mha (doc : JVal) (kvs : List (String × String))
    (h : load_predictions_json doc = .ok kvs) :
    ∀ kv ∈ kvs, pyEndsWith kv.1 ".mha" = true := by
  simp only [load_predictions_json] at h
  split at h
  · cases h
  · split at h
    · cases h
    · exact processEntries_keys _ _ _ h (by intro kv hkv; cases hkv)

/-- C10 witness: the theorem evaluated on the concrete one-job manifest
whose raw pk `a` lacks the extension and is normalised to `a.mha`. -/
theorem c10_keys_end_mha_witness :
    pyEndsWith ("a.mha" : String) ".mha" = true :=
  c10_keys_end_mha (encodeManifest [jobW]) [("a.mha", "x")] rfl ("a.mha", "x") (by simp)

end PanoramaEval
